import Mathlib

/-!
Shallow embedding of `job_automator.py` (Tiyashabanerjee/Job-Hunt).

Text is modelled as `List Char` (`Str`), so that every operation is a
structurally recursive, kernel-computable function.  The Python methods `str.lower`,
`str.split`, the substring test `in`, `str.replace` and slicing are embedded
as `lower`, `pyWords`, `isSubstr`, `replaceAll` and `List.take`.

Partial Python code (an expression that can raise) is embedded in
`Except Unit`: in `filter_relevant_jobs` the expression
`role.split()[0]` raises `IndexError` on a role without words, and in the
adapter loops a missing required key raises `KeyError`; both are modelled as
`.error ()`.  Machine-level concerns do not arise: the program manipulates
strings, lists and small integers only.
-/

namespace JobAutomator

deriving instance DecidableEq for Except

/-- Text, as a sequence of characters (Python `str`). -/
abbrev Str := List Char

/-- Python `s.lower()` (character-wise lower-casing). -/
def lower (s : Str) : Str := s.map Char.toLower

/-- Python `needle in hay` for strings: `needle` occurs contiguously in `hay`. -/
def isSubstr (needle hay : Str) : Bool := decide (needle <:+: hay)

/-- Helper for `pyWords`: `acc` holds the reversed current word. -/
def pyWordsAux : Str → Str → List Str
  | [], acc => if acc.isEmpty then [] else [acc.reverse]
  | c :: cs, acc =>
    if c.isWhitespace then
      (if acc.isEmpty then pyWordsAux cs [] else acc.reverse :: pyWordsAux cs [])
    else pyWordsAux cs (c :: acc)

/-- Python `s.split()` with no argument: split on runs of whitespace,
discarding empty pieces. -/
def pyWords (s : Str) : List Str := pyWordsAux s []

/-- Python `s.split()[0]` when it exists (first whitespace-separated word). -/
def firstWord (s : Str) : Str := (pyWords s).headD []

/-- Fuel-driven core of `replaceAll`; fuel bounds the length of `s`. -/
def replaceAllAux (pat rep : Str) : Nat → Str → Str
  | 0, s => s
  | _ + 1, [] => []
  | fuel + 1, c :: cs =>
    if pat ≠ [] ∧ decide (pat <+: (c :: cs)) then
      rep ++ replaceAllAux pat rep fuel ((c :: cs).drop pat.length)
    else
      c :: replaceAllAux pat rep fuel cs

/-- Python `s.replace(pat, rep)` for a non-empty `pat`: replace every
non-overlapping occurrence, scanning left to right. -/
def replaceAll (pat rep s : Str) : Str := replaceAllAux pat rep s.length s

/-- One normalized job listing (`Posting` of the spec; the dict built by the
adapters in `job_automator.py`).  `posted_at` holds the parsed timestamp
denoted by the stored string, `none` when the string is empty. -/
structure Posting where
  job_id : Str
  title : Str
  company : Str
  location : Str
  remote : Bool
  description : Str
  apply_link : Str
  posted_at : Option Int
  salary : Str
  tags : Str
  source : Str
deriving DecidableEq

/-- The candidate profile fields consumed by `filter_relevant_jobs`
(`profile["target_roles"]` and `profile["skills"]`). -/
structure Profile where
  target_roles : List Str
  skills : List Str
deriving DecidableEq

/-- The `non_us` deny-list of `filter_relevant_jobs` (lines 211-218). -/
def non_us : List Str :=
  ["india", "uk", "germany", "france", "canada", "australia",
   "netherlands", "singapore", "brazil", "spain", "italy", "poland",
   "sweden", "norway", "denmark", "finland", "switzerland", "austria",
   "belgium", "portugal", "mexico", "argentina", "colombia", "philippines",
   "pakistan", "bangladesh", "nigeria", "kenya", "south africa", "egypt",
   "dubai", "uae", "london", "berlin", "paris", "toronto", "sydney", "mumbai",
   "bangalore", "delhi", "amsterdam", "remote - uk", "remote - europe",
   "remote - canada", "remote - australia"].map String.toList

/-- The `us_states` allow-list of the unreachable second block of
`filter_relevant_jobs` (lines 248-257). -/
def us_states : List Str :=
  ["alabama", "alaska", "arizona", "arkansas", "california", "colorado",
   "connecticut", "delaware", "florida", "georgia", "hawaii", "idaho", "illinois",
   "indiana", "iowa", "kansas", "kentucky", "louisiana", "maine", "maryland",
   "massachusetts", "michigan", "minnesota", "mississippi", "missouri", "montana",
   "nebraska", "nevada", "new hampshire", "new jersey", "new mexico", "new york",
   "north carolina", "north dakota", "ohio", "oklahoma", "oregon", "pennsylvania",
   "rhode island", "south carolina", "south dakota", "tennessee", "texas", "utah",
   "vermont", "virginia", "washington", "west virginia", "wisconsin", "wyoming",
   "nyc", "sf", "la", "chicago", "boston", "seattle", "austin", "denver", "atlanta",
   "miami", "dallas", "houston", "phoenix", "portland", "remote", "anywhere"].map String.toList

/-- Python `jid in already_seen or jid in seen_ids` (line 204). -/
def dupSkip (seen seenIds : List Str) (job : Posting) : Bool :=
  seen.contains job.job_id || seenIds.contains job.job_id

/-- Python `REMOTE_ONLY and not job.get("remote")` (line 206). -/
def remoteSkip (remote_only : Bool) (job : Posting) : Bool :=
  remote_only && !job.remote

/-- Python `location and any(kw in location for kw in denylist)` over
`location = job.get("location", "").lower()` (lines 210, 219), generalized
over the deny-list. -/
def geoSkipWith (denylist : List Str) (job : Posting) : Bool :=
  let location := lower job.location
  !location.isEmpty && denylist.any (fun kw => isSubstr kw location)

/-- Python `not any(kw in location for kw in us_states)` of the unreachable second
block (line 258): skip unless an allow-list keyword occurs in the location. -/
def usAllowSkip (job : Posting) : Bool :=
  let location := lower job.location
  !(us_states.any (fun kw => isSubstr kw location))

/-- Python `text = (job["title"] + " " + job["description"]).lower()` (line 223). -/
def relevantText (job : Posting) : Str :=
  lower (job.title ++ [' '] ++ job.description)

/-- Python `sum(1 for sk in skills if sk in text)` (line 225). -/
def skillCount (skills : List Str) (job : Posting) : Nat :=
  (skills.filter (fun sk => isSubstr sk (relevantText job))).length

/-- Python `any(role.split()[0] in text for role in target_roles)` (line 224):
`any` evaluates the generator left to right and stops at the first `True`;
`role.split()[0]` raises `IndexError` when `role` has no words. -/
def roleMatchE : List Str → Str → Except Unit Bool
  | [], _ => .ok false
  | r :: rs, text =>
    match pyWords r with
    | [] => .error ()
    | w :: _ => if isSubstr w text then .ok true else roleMatchE rs text

/-- Outcome of the per-posting decision made by the loop body of
`filter_relevant_jobs` (lines 202-229). -/
inductive Decision
  | skipDup
  | skipRemote
  | skipGeo
  | accept
  | reject
deriving DecidableEq

/-- The loop body of `filter_relevant_jobs` (lines 202-229) for one posting:
which `continue` fires, or whether the posting is accepted
(`role_match or skill_match`, threshold 1) or rejected. -/
def decideJobE (roles skills seen seenIds : List Str) (remote_only : Bool)
    (job : Posting) : Except Unit Decision :=
  if dupSkip seen seenIds job then .ok .skipDup
  else if remoteSkip remote_only job then .ok .skipRemote
  else if geoSkipWith non_us job then .ok .skipGeo
  else
    match roleMatchE roles (relevantText job) with
    | .error e => .error e
    | .ok rm =>
      if rm || decide (1 ≤ skillCount skills job) then .ok .accept else .ok .reject

/-- The per-posting decision of the unreachable second block of
`filter_relevant_jobs` (lines 239-267): allow-list geography test and skill
threshold 2. -/
def decideJobAltE (roles skills seen seenIds : List Str) (remote_only : Bool)
    (job : Posting) : Except Unit Decision :=
  if dupSkip seen seenIds job then .ok .skipDup
  else if remoteSkip remote_only job then .ok .skipRemote
  else if usAllowSkip job then .ok .skipGeo
  else
    match roleMatchE roles (relevantText job) with
    | .error e => .error e
    | .ok rm =>
      if rm || decide (2 ≤ skillCount skills job) then .ok .accept else .ok .reject

/-- The accumulation loop of `filter_relevant_jobs`: walk the postings,
decide each one with `dec`, extend `seen_ids` and `filtered` on acceptance. -/
def filterWithE (dec : List Str → Posting → Except Unit Decision) :
    List Str → List Posting → Except Unit (List Posting)
  | _, [] => .ok []
  | seenIds, job :: rest =>
    match dec seenIds job with
    | .error e => .error e
    | .ok .accept =>
      match filterWithE dec (job.job_id :: seenIds) rest with
      | .error e => .error e
      | .ok tail => .ok (job :: tail)
    | .ok _ => filterWithE dec seenIds rest

/-- Python `target_roles = [r.lower() for r in profile.get("target_roles", [])]`
(line 197). -/
def profileRoles (profile : Profile) : List Str :=
  profile.target_roles.map lower

/-- Python `skills = [s.lower() for s in profile.get("skills", [])[:8]]` (line 198). -/
def profileSkills (profile : Profile) : List Str :=
  (profile.skills.take 8).map lower

/-- Embeds `filter_relevant_jobs(jobs, profile, already_seen)` (lines 196-232): the
code that actually runs — lower-case the target roles, lower-case the first 8
skills, accumulate accepted postings, return the first 20.  `remote_only`
threads the `REMOTE_ONLY` configuration global. -/
def filter_relevant_jobs (jobs : List Posting) (profile : Profile)
    (already_seen : List Str) (remote_only : Bool) : Except Unit (List Posting) :=
  match filterWithE
      (fun seenIds =>
        decideJobE (profileRoles profile) (profileSkills profile) already_seen seenIds remote_only)
      [] jobs with
  | .error e => .error e
  | .ok filtered => .ok (filtered.take 20)

/-- The unreachable second block of `filter_relevant_jobs` (lines 233-270),
as the function it would compute if it ran: allow-list geography and skill
threshold 2. -/
def filter_relevant_jobs_alt (jobs : List Posting) (profile : Profile)
    (already_seen : List Str) (remote_only : Bool) : Except Unit (List Posting) :=
  match filterWithE
      (fun seenIds =>
        decideJobAltE (profileRoles profile) (profileSkills profile) already_seen seenIds remote_only)
      [] jobs with
  | .error e => .error e
  | .ok filtered => .ok (filtered.take 20)

/-- Python `a or b` for an optional string `a`: fall through when `a` is
absent or empty (falsy). -/
def pyOr (a : Option Str) (b : Str) : Str :=
  match a with
  | none => b
  | some s => if s.isEmpty then b else s

/-- One raw entry of the RemoteOK response (`for job in data`, line 93).
`isDict` is `isinstance(job, dict)`; optional fields are `job.get(...)`;
`date` is the timestamp denoted by the ISO `date` string, `none` when the
field is absent or empty. -/
structure RokRaw where
  isDict : Bool
  id : Option Str
  position : Option Str
  company : Option Str
  description : Option Str
  url : Option Str
  apply_url : Option Str
  date : Option Int
  salary : Option Str
  tags : Option (List Str)
deriving DecidableEq

/-- Python `not job.get("id")` (line 94): the id is falsy (absent or empty). -/
def rokIdFalsy (j : RokRaw) : Bool :=
  match j.id with
  | none => true
  | some s => s.isEmpty

/-- The Posting dict appended by `fetch_remoteok_jobs` (lines 99-111). -/
def rokPosting (j : RokRaw) : Posting :=
  { job_id := "rok_".toList ++ (j.id.getD [])
    title := j.position.getD []
    company := j.company.getD "N/A".toList
    location := "Remote".toList
    remote := true
    description := (replaceAll "<".toList " <".toList (j.description.getD [])).take 3000
    apply_link := pyOr j.url (j.apply_url.getD [])
    posted_at := j.date
    salary := j.salary.getD []
    tags := List.intercalate ", ".toList (j.tags.getD [])
    source := "RemoteOK".toList }

/-- Embeds `fetch_remoteok_jobs` (lines 81-116): skip non-dict or id-less entries,
skip entries strictly older than the 24-hour cutoff (an entry without a date
counts as posted now), and normalize the rest.  `now` is the invocation time
in epoch seconds; network transport is abstracted into the `data` argument. -/
def fetch_remoteok_jobs (now : Int) : List RokRaw → List Posting
  | [] => []
  | j :: rest =>
    if !j.isDict || rokIdFalsy j then fetch_remoteok_jobs now rest
    else if j.date.getD now < now - 86400 then fetch_remoteok_jobs now rest
    else rokPosting j :: fetch_remoteok_jobs now rest

/-- One raw entry of the Arbeitnow response (lines 131-147).  `slug` and
`created_at` are required in the dict literal (`job["slug"]`,
`job["created_at"]`) and raise `KeyError` when absent. -/
structure ArbRaw where
  slug : Option Str
  title : Option Str
  company_name : Option Str
  location : Option Str
  remote : Option Bool
  description : Option Str
  created_at : Option Int
  tags : Option (List Str)
deriving DecidableEq

/-- The Posting dict appended by `fetch_arbeitnow_jobs` (lines 135-147),
given the required `slug` and `created_at` values. -/
def arbPosting (j : ArbRaw) (slug : Str) (t : Int) : Posting :=
  { job_id := "arb_".toList ++ slug
    title := j.title.getD []
    company := j.company_name.getD "N/A".toList
    location := pyOr j.location
      (if j.remote.getD false then "Remote".toList else "N/A".toList)
    remote := j.remote.getD false
    description := (replaceAll "<".toList " <".toList (j.description.getD [])).take 3000
    apply_link := "https://www.arbeitnow.com/jobs/".toList ++ slug
    posted_at := some t
    salary := []
    tags := List.intercalate ", ".toList (j.tags.getD [])
    source := "Arbeitnow".toList }

/-- The Arbeitnow loop (lines 131-147): skip entries older than the cutoff
(`created_at` defaulting to epoch 0 for the check), then build the Posting;
a missing required key is an error that aborts the whole loop. -/
def arbLoop (now : Int) : List ArbRaw → Except Unit (List Posting)
  | [] => .ok []
  | j :: rest =>
    if j.created_at.getD 0 < now - 86400 then arbLoop now rest
    else
      match j.slug with
      | none => .error ()
      | some slug =>
        match j.created_at with
        | none => .error ()
        | some t =>
          match arbLoop now rest with
          | .error e => .error e
          | .ok tail => .ok (arbPosting j slug t :: tail)

/-- Embeds `fetch_arbeitnow_jobs` (lines 119-152): the whole loop runs under
`try`, so any raised error yields an empty sequence for the provider. -/
def fetch_arbeitnow_jobs (now : Int) (data : List ArbRaw) : List Posting :=
  match arbLoop now data with
  | .ok l => l
  | .error _ => []

/-- The markup tokens stripped from The Muse descriptions (line 174). -/
def museTags : List Str :=
  ["<p>", "</p>", "<br>", "<ul>", "<li>", "</li>", "</ul>",
   "<strong>", "</strong>", "<em>", "</em>"].map String.toList

/-- One raw entry of The Muse response (lines 167-188).  `publication_date`
is the timestamp its string denotes, `none` when absent or empty (falsy);
`id` is required (`job["id"]`); `locations` holds the location names. -/
structure MuseRaw where
  publication_date : Option Int
  contents : Option Str
  id : Option Str
  name : Option Str
  company_name : Option Str
  locations : Option (List Str)
  landing_page : Option Str
  categories : Option (List Str)
deriving DecidableEq

/-- Lines 168-172: an entry is skipped when it has a publication date and
that date is strictly older than the cutoff; a dateless entry is kept. -/
def pubTooOld (now : Int) (j : MuseRaw) : Bool :=
  match j.publication_date with
  | some t => decide (t < now - 86400)
  | none => false

/-- The Posting dict appended by `fetch_themuse_jobs` (lines 173-188),
given the required `id` value. -/
def musePosting (j : MuseRaw) (i : Str) : Posting :=
  { job_id := "muse_".toList ++ i
    title := j.name.getD []
    company := j.company_name.getD "N/A".toList
    location := pyOr (some (List.intercalate ", ".toList (j.locations.getD [])))
      "N/A".toList
    remote := (j.locations.getD []).any (fun l => isSubstr "remote".toList (lower l))
    description :=
      (museTags.foldl (fun d tag => replaceAll tag " ".toList d) (j.contents.getD [])).take 3000
    apply_link := j.landing_page.getD []
    posted_at := j.publication_date
    salary := []
    tags := List.intercalate ", ".toList (j.categories.getD [])
    source := "The Muse".toList }

/-- The Muse loop (lines 167-188): skip stale entries, build the rest; a
missing required key is an error that aborts the whole loop. -/
def museLoop (now : Int) : List MuseRaw → Except Unit (List Posting)
  | [] => .ok []
  | j :: rest =>
    if pubTooOld now j then museLoop now rest
    else
      match j.id with
      | none => .error ()
      | some i =>
        match museLoop now rest with
        | .error e => .error e
        | .ok tail => .ok (musePosting j i :: tail)

/-- Embeds `fetch_themuse_jobs` (lines 155-193): the whole loop runs under `try`,
so any raised error yields an empty sequence for the provider. -/
def fetch_themuse_jobs (now : Int) (data : List MuseRaw) : List Posting :=
  match museLoop now data with
  | .ok l => l
  | .error _ => []

/-- One entry of the `resume_improvements` array of the oracle response. -/
structure ResumeImprovement where
  section_name : Str
  current_issue : Str
  improved_version : Str
  impact : Str
deriving DecidableEq

/-- The structured oracle response for one posting (`EnrichmentResult` of
the spec; the JSON object returned by `analyze_job`, lines 293-304, plus
the `_processed_at` stamp of line 321). -/
structure Enrichment where
  match_score : Int
  match_reasons : List Str
  gaps : List Str
  keywords_to_add : List Str
  cover_letter : Str
  resume_improvements : List ResumeImprovement
  application_strategy : Str
  processed_at : Str
deriving DecidableEq

/-- The comparison used by the sort in `send_email_digest` (line 386): `a`
precedes `b` when the match score of `a` is at least that of `b`. -/
def scoreGE (a b : Posting × Enrichment) : Prop :=
  b.2.match_score ≤ a.2.match_score

instance : DecidableRel scoreGE := fun _ _ => Int.decLe _ _

instance : IsTotal (Posting × Enrichment) scoreGE :=
  ⟨fun a b => le_total b.2.match_score a.2.match_score⟩

instance : IsTrans (Posting × Enrichment) scoreGE :=
  ⟨fun _ _ _ h1 h2 => le_trans h2 h1⟩

/-- Python `sorted(jobs_with_ai, key=lambda x: x[1].get("match_score", 0),
reverse=True)` (line 386): a stable sort by descending match score,
embedded as insertion sort (stable for the total preorder `scoreGE`). -/
def sortJobs (l : List (Posting × Enrichment)) : List (Posting × Enrichment) :=
  List.insertionSort scoreGE l

/-- The rendered digest, abstracted to its observable shape: the count in
the subject/header line and the job cards in rendered order (lines 395-441
build one card per element of `sorted_jobs`, in order). -/
structure Report where
  header_count : Nat
  cards : List (Posting × Enrichment)
deriving DecidableEq

/-- Embeds `send_email_digest(jobs_with_ai, sheet_id)` (lines 381-447): no report
for an empty list; otherwise the report renders the sorted pairs in order. -/
def send_email_digest (jobs_with_ai : List (Posting × Enrichment)) : Option Report :=
  if jobs_with_ai.isEmpty then none
  else
    let sorted_jobs := sortJobs jobs_with_ai
    some { header_count := sorted_jobs.length, cards := sorted_jobs }

/-- The enrichment loop of `main` (lines 491-502): for each posting call the
oracle (`analyze_job`); on success write the row to the sheet and append the
pair to `jobs_with_ai`; any error skips that posting and continues.  Returns
(rows written to the sheet, `jobs_with_ai`). -/
def enrichAndPersist (oracle : Posting → Except Unit Enrichment) :
    List Posting → List (Posting × Enrichment) × List (Posting × Enrichment)
  | [] => ([], [])
  | job :: rest =>
    match oracle job with
    | .ok ai =>
      let out := enrichAndPersist oracle rest
      ((job, ai) :: out.1, (job, ai) :: out.2)
    | .error _ => enrichAndPersist oracle rest

/-- The observable outcome of one run past the fetch stage. -/
structure RunOutcome where
  persisted : List (Posting × Enrichment)
  jobs_with_ai : List (Posting × Enrichment)
  report : Option Report
deriving DecidableEq

/-- Steps 3-5 of `main` (lines 483-508): filter the aggregated postings;
an empty filtered list ends the run normally with no enrichment, no
persistence and no report (lines 485-487); otherwise enrich and persist
each candidate and send the digest. -/
def runPipeline (oracle : Posting → Except Unit Enrichment) (profile : Profile)
    (already_seen : List Str) (remote_only : Bool) (all_jobs : List Posting) :
    Except Unit RunOutcome :=
  match filter_relevant_jobs all_jobs profile already_seen remote_only with
  | .error e => .error e
  | .ok relevant_jobs =>
    if relevant_jobs.isEmpty then
      .ok { persisted := [], jobs_with_ai := [], report := none }
    else
      let out := enrichAndPersist oracle relevant_jobs
      .ok { persisted := out.1, jobs_with_ai := out.2, report := send_email_digest out.2 }

/-! ### Lemmas about the filter loop -/

theorem filterWithE_ok_sublist (dec : List Str → Posting → Except Unit Decision)
    (jobs : List Posting) :
    ∀ (seenIds : List Str) (out : List Posting),
      filterWithE dec seenIds jobs = .ok out → out.Sublist jobs := by
  induction jobs with
  | nil =>
    intro seenIds out h
    simp only [filterWithE] at h
    cases h
    exact List.Sublist.refl _
  | cons job rest ih =>
    intro seenIds out h
    simp only [filterWithE] at h
    split at h
    · simp at h
    · split at h
      · simp at h
      · rename_i tail htail
        cases h
        exact List.Sublist.cons₂ job (ih _ _ htail)
    · exact List.Sublist.cons job (ih _ _ h)

theorem decideJobE_accept_dupSkip {roles skills seen seenIds : List Str}
    {ro : Bool} {job : Posting}
    (h : decideJobE roles skills seen seenIds ro job = .ok .accept) :
    dupSkip seen seenIds job = false := by
  by_cases hd : dupSkip seen seenIds job
  · simp [decideJobE, hd] at h
  · simpa using hd

theorem dupSkip_false_iff {seen seenIds : List Str} {job : Posting} :
    dupSkip seen seenIds job = false ↔
      job.job_id ∉ seen ∧ job.job_id ∉ seenIds := by
  simp [dupSkip]

theorem filterWithE_decideJobE_nodup (roles skills seen : List Str) (ro : Bool)
    (jobs : List Posting) :
    ∀ (seenIds : List Str) (out : List Posting),
      filterWithE (fun sIds => decideJobE roles skills seen sIds ro) seenIds jobs = .ok out →
      (∀ p ∈ out, p.job_id ∉ seen ∧ p.job_id ∉ seenIds) ∧
        (out.map Posting.job_id).Nodup := by
  induction jobs with
  | nil =>
    intro seenIds out h
    simp only [filterWithE] at h
    cases h
    simp
  | cons job rest ih =>
    intro seenIds out h
    simp only [filterWithE] at h
    split at h
    · simp at h
    · rename_i hdec
      split at h
      · simp at h
      · rename_i tail htail
        cases h
        have hdup := dupSkip_false_iff.mp (decideJobE_accept_dupSkip hdec)
        have ihr := ih (job.job_id :: seenIds) tail htail
        refine ⟨?_, ?_⟩
        · intro p hp
          rcases List.mem_cons.mp hp with hp | hp
          · subst hp; exact hdup
          · have := ihr.1 p hp
            exact ⟨this.1, fun hmem => this.2 (List.mem_cons_of_mem _ hmem)⟩
        · rw [List.map_cons, List.nodup_cons]
          refine ⟨?_, ihr.2⟩
          intro hmem
          rcases List.mem_map.mp hmem with ⟨p, hp, hpe⟩
          exact (ihr.1 p hp).2 (by rw [hpe]; exact List.mem_cons_self _ _)
    · rename_i hdec hne
      exact ih seenIds out h

/-! ### Concrete exemplar data, used by witnesses and counterexamples -/

/-- A relevant remote posting (id `rok_1`, title containing `engineer`). -/
def exJob : Posting :=
  { job_id := "rok_1".toList
    title := "Senior Engineer".toList
    company := "Acme".toList
    location := "Remote".toList
    remote := true
    description := "Build things fast".toList
    apply_link := []
    posted_at := some 100000
    salary := []
    tags := []
    source := "RemoteOK".toList }

/-- A profile targeting `Engineer` roles with one skill. -/
def exProfile : Profile :=
  { target_roles := ["Engineer".toList], skills := ["python".toList] }

/-! ### Claim theorems C1 and C2 -/

/-- C1: for every input posting sequence, profile and SeenSet, each posting
id occurs at most once in the list returned by `filter_relevant_jobs`, and
no id that is in the SeenSet at run start occurs in that list. -/
theorem c1_filter_unique_and_unseen (jobs : List Posting) (profile : Profile)
    (seen : List Str) (ro : Bool) (out : List Posting)
    (h : filter_relevant_jobs jobs profile seen ro = .ok out) :
    (out.map Posting.job_id).Nodup ∧ ∀ p ∈ out, p.job_id ∉ seen := by
  unfold filter_relevant_jobs at h
  split at h
  · simp at h
  · rename_i filtered hf
    cases h
    have hn := filterWithE_decideJobE_nodup (profileRoles profile) (profileSkills profile)
      seen ro jobs [] filtered hf
    refine ⟨?_, ?_⟩
    · rw [List.map_take]
      exact (List.take_sublist _ _).nodup hn.2
    · intro p hp
      exact (hn.1 p (List.take_subset _ _ hp)).1

/-- Witness for C1 at a concrete run. -/
theorem c1_filter_unique_and_unseen_witness :
    (([exJob].map Posting.job_id)).Nodup ∧ ∀ p ∈ [exJob], p.job_id ∉ ([] : List Str) :=
  c1_filter_unique_and_unseen [exJob] exProfile [] false [exJob] (by decide)

/-- C2: the list returned by `filter_relevant_jobs` has length at most 20
and is a subsequence of the input in the original input order. -/
theorem c2_filter_cap_and_subsequence (jobs : List Posting) (profile : Profile)
    (seen : List Str) (ro : Bool) (out : List Posting)
    (h : filter_relevant_jobs jobs profile seen ro = .ok out) :
    out.length ≤ 20 ∧ out.Sublist jobs := by
  unfold filter_relevant_jobs at h
  split at h
  · simp at h
  · rename_i filtered hf
    cases h
    refine ⟨?_, ?_⟩
    · simp
    · exact (List.take_sublist _ _).trans (filterWithE_ok_sublist _ jobs [] filtered hf)

/-- Witness for C2 at a concrete run. -/
theorem c2_filter_cap_and_subsequence_witness :
    ([exJob] : List Posting).length ≤ 20 ∧ ([exJob] : List Posting).Sublist [exJob] :=
  c2_filter_cap_and_subsequence [exJob] exProfile [] false [exJob] (by decide)

/-! ### The relevance predicate -/

theorem roleMatchE_of_words (text : Str) :
    ∀ (roles : List Str), (∀ r ∈ roles, pyWords r ≠ []) →
      roleMatchE roles text = .ok (roles.any (fun r => isSubstr (firstWord r) text)) := by
  intro roles
  induction roles with
  | nil => intro _; simp [roleMatchE]
  | cons r rs ih =>
    intro hw
    have hr := hw r (List.mem_cons_self _ _)
    rcases hpw : pyWords r with _ | ⟨w, ws⟩
    · exact absurd hpw hr
    · have hfw : firstWord r = w := by simp [firstWord, hpw]
      have ihr := ih (fun r' hr' => hw r' (List.mem_cons_of_mem _ hr'))
      by_cases hsub : isSubstr w text
      · simp [roleMatchE, hpw, hsub, hfw]
      · simp [roleMatchE, hpw, hsub, hfw, ihr]

/-- C3: a posting that passes the duplicate, remote-only and geography checks
is accepted if and only if the first word of some lower-cased target role is
a substring of the lower-cased title-plus-description text, or at least one
of the first 8 lower-cased skills is a substring of that text (threshold 1);
stated under the precondition that every lower-cased target role contains a
word, which is what makes the role test evaluable. -/
theorem c3_relevance_iff (profile : Profile) (seen seenIds : List Str)
    (ro : Bool) (job : Posting)
    (hw : ∀ r ∈ profileRoles profile, pyWords r ≠ [])
    (hdup : dupSkip seen seenIds job = false)
    (hrem : remoteSkip ro job = false)
    (hgeo : geoSkipWith non_us job = false) :
    decideJobE (profileRoles profile) (profileSkills profile) seen seenIds ro job =
        .ok .accept ↔
      ((profileRoles profile).any
          (fun r => isSubstr (firstWord r) (relevantText job)) = true ∨
        1 ≤ skillCount (profileSkills profile) job) := by
  have hrm := roleMatchE_of_words (relevantText job) (profileRoles profile) hw
  rw [decideJobE, if_neg (by simp [hdup]), if_neg (by simp [hrem]), if_neg (by simp [hgeo]),
    hrm]
  dsimp only
  by_cases hb : ((profileRoles profile).any
      (fun r => isSubstr (firstWord r) (relevantText job)) ||
        decide (1 ≤ skillCount (profileSkills profile) job)) = true
  · rw [if_pos hb]
    simp only [Bool.or_eq_true, decide_eq_true_eq] at hb
    exact iff_of_true rfl hb
  · rw [if_neg hb]
    simp only [Bool.or_eq_true, decide_eq_true_eq] at hb
    push_neg at hb
    refine iff_of_false (by simp) ?_
    rintro (h1 | h2)
    · exact hb.1 h1
    · exact not_le.mpr hb.2 h2

/-- Witness for C3 at a concrete posting and profile. -/
theorem c3_relevance_iff_witness :
    (decideJobE (profileRoles exProfile) (profileSkills exProfile) [] [] false exJob =
        .ok .accept ↔
      ((profileRoles exProfile).any
          (fun r => isSubstr (firstWord r) (relevantText exJob)) = true ∨
        1 ≤ skillCount (profileSkills exProfile) exJob)) :=
  c3_relevance_iff exProfile [] [] false exJob (by decide) (by decide) (by decide) (by decide)

/-! ### Geography policy -/

theorem decideJobE_skipGeo_iff (roles skills seen seenIds : List Str)
    (ro : Bool) (job : Posting) :
    decideJobE roles skills seen seenIds ro job = .ok .skipGeo ↔
      (dupSkip seen seenIds job = false ∧ remoteSkip ro job = false ∧
        geoSkipWith non_us job = true) := by
  unfold decideJobE
  by_cases h1 : dupSkip seen seenIds job
  · rw [if_pos h1]
    simp [h1]
  · rw [if_neg h1]
    by_cases h2 : remoteSkip ro job
    · rw [if_pos h2]
      simp [h2]
    · rw [if_neg h2]
      by_cases h3 : geoSkipWith non_us job
      · rw [if_pos h3]
        exact iff_of_true rfl ⟨by simpa using h1, by simpa using h2, by simpa using h3⟩
      · rw [if_neg h3]
        refine iff_of_false ?_ ?_
        · rcases hr : roleMatchE roles (relevantText job) with e | rm
          · simp
          · dsimp only
            by_cases hb : (rm || decide (1 ≤ skillCount skills job)) = true
            · rw [if_pos hb]; simp
            · rw [if_neg hb]; simp
        · rintro ⟨-, -, h3'⟩
          exact h3 h3'

/-- A relevant posting whose location (`Zz`) matches neither the `non_us`
deny-list nor the `us_states` allow-list. -/
def exJobZ : Posting :=
  { exJob with job_id := "rok_2".toList, location := "Zz".toList }

/-- C4: the geography policy in force is the deny-list test — a posting is
rejected on geography grounds iff it passed the duplicate and remote checks
and its lower-cased location contains a `non_us` keyword; the alternate
allow-list policy is not the one executed: a posting whose location matches
no `us_states` keyword is accepted by `filter_relevant_jobs`, though the
allow-list policy (`filter_relevant_jobs_alt`, the unreachable second block)
would reject it. -/
theorem c4_geography_denylist_only :
    (∀ (roles skills seen seenIds : List Str) (ro : Bool) (job : Posting),
      decideJobE roles skills seen seenIds ro job = .ok .skipGeo ↔
        (dupSkip seen seenIds job = false ∧ remoteSkip ro job = false ∧
          geoSkipWith non_us job = true)) ∧
    us_states.all (fun kw => !isSubstr kw (lower exJobZ.location)) = true ∧
    filter_relevant_jobs [exJobZ] exProfile [] false = .ok [exJobZ] ∧
    filter_relevant_jobs_alt [exJobZ] exProfile [] false = .ok [] :=
  ⟨decideJobE_skipGeo_iff, by decide, by decide, by decide⟩

/-- C9: a posting with an empty location string skips the geography test
entirely — whatever the deny-list, the test comes out false, and the
per-posting decision is never a geography rejection. -/
theorem c9_empty_location_never_geo_rejected
    (denylist roles skills seen seenIds : List Str) (ro : Bool) (job : Posting)
    (hloc : job.location = []) :
    geoSkipWith denylist job = false ∧
      decideJobE roles skills seen seenIds ro job ≠ .ok .skipGeo := by
  have hg : ∀ dl : List Str, geoSkipWith dl job = false := by
    intro dl
    simp [geoSkipWith, hloc, lower]
  refine ⟨hg denylist, ?_⟩
  intro h
  have hc := (decideJobE_skipGeo_iff roles skills seen seenIds ro job).mp h
  rw [hg non_us] at hc
  exact absurd hc.2.2 (by simp)

/-- An `exJob` variant with an empty location string. -/
def exJobNoLoc : Posting := { exJob with location := [] }

/-- Witness for C9 at a concrete posting with empty location. -/
theorem c9_empty_location_never_geo_rejected_witness :
    geoSkipWith non_us exJobNoLoc = false ∧
      decideJobE (profileRoles exProfile) (profileSkills exProfile) [] [] false exJobNoLoc ≠
        .ok .skipGeo :=
  c9_empty_location_never_geo_rejected non_us (profileRoles exProfile)
    (profileSkills exProfile) [] [] false exJobNoLoc (by decide)

/-! ### Totality of the filter (role-word precondition) -/

theorem decideJobE_ok_of_words {roles : List Str}
    (hw : ∀ r ∈ roles, pyWords r ≠ []) (skills seen seenIds : List Str)
    (ro : Bool) (job : Posting) :
    ∃ d, decideJobE roles skills seen seenIds ro job = .ok d := by
  unfold decideJobE
  split
  · exact ⟨_, rfl⟩
  · split
    · exact ⟨_, rfl⟩
    · split
      · exact ⟨_, rfl⟩
      · rw [roleMatchE_of_words _ _ hw]
        dsimp only
        split
        · exact ⟨_, rfl⟩
        · exact ⟨_, rfl⟩

theorem filterWithE_ok_of_words {roles : List Str}
    (hw : ∀ r ∈ roles, pyWords r ≠ []) (skills seen : List Str) (ro : Bool)
    (jobs : List Posting) :
    ∀ seenIds, ∃ out,
      filterWithE (fun sIds => decideJobE roles skills seen sIds ro) seenIds jobs =
        .ok out := by
  induction jobs with
  | nil => exact fun _ => ⟨[], rfl⟩
  | cons job rest ih =>
    intro seenIds
    obtain ⟨d, hd⟩ := decideJobE_ok_of_words hw skills seen seenIds ro job
    cases d with
    | accept =>
      obtain ⟨tail, ht⟩ := ih (job.job_id :: seenIds)
      exact ⟨job :: tail, by simp [filterWithE, hd, ht]⟩
    | skipDup =>
      obtain ⟨out, ho⟩ := ih seenIds
      exact ⟨out, by simp [filterWithE, hd, ho]⟩
    | skipRemote =>
      obtain ⟨out, ho⟩ := ih seenIds
      exact ⟨out, by simp [filterWithE, hd, ho]⟩
    | skipGeo =>
      obtain ⟨out, ho⟩ := ih seenIds
      exact ⟨out, by simp [filterWithE, hd, ho]⟩
    | reject =>
      obtain ⟨out, ho⟩ := ih seenIds
      exact ⟨out, by simp [filterWithE, hd, ho]⟩

theorem roleMatchE_error_iff (text : Str) :
    ∀ (roles : List Str),
      roleMatchE roles text = .error () ↔
        ((roles.takeWhile fun r => !(pyWords r).isEmpty).length < roles.length ∧
          ∀ r ∈ roles.takeWhile (fun r => !(pyWords r).isEmpty),
            isSubstr (firstWord r) text = false) := by
  intro roles
  induction roles with
  | nil => simp [roleMatchE]
  | cons r rs ih =>
    rcases hpw : pyWords r with _ | ⟨w, ws⟩
    · simp [roleMatchE, hpw, List.takeWhile_cons, Nat.lt_succ_iff]
    · have hfw : firstWord r = w := by simp [firstWord, hpw]
      by_cases hsub : isSubstr w text
      · simp [roleMatchE, hpw, hsub, List.takeWhile_cons, hfw]
      · simp [roleMatchE, hpw, hsub, List.takeWhile_cons, hfw, ih, Nat.succ_lt_succ_iff]

/-- A profile whose second target role is the empty string; the first role
matches `exJobNoLoc`, so `any` short-circuits before the empty role. -/
def exProfileEmptyRole : Profile :=
  { target_roles := ["Engineer".toList, []], skills := [] }

/-- C10 counterexample: a profile violating the precondition (it has an
empty target role) together with a posting that reaches the relevance check
(all three prior checks pass), on which `filter_relevant_jobs` nonetheless
succeeds — the first role matches and `any` never evaluates the empty
role — refuting "the role-match evaluation fails for any posting reaching
the relevance check". -/
theorem c10_totality_counterexample :
    (∃ r ∈ exProfileEmptyRole.target_roles, pyWords (lower r) = []) ∧
    dupSkip [] [] exJobNoLoc = false ∧
    remoteSkip false exJobNoLoc = false ∧
    geoSkipWith non_us exJobNoLoc = false ∧
    filter_relevant_jobs [exJobNoLoc] exProfileEmptyRole [] false =
      .ok [exJobNoLoc] := by
  decide

/-- C10 as amended: `filter_relevant_jobs` is total under the precondition
that every lower-cased target role contains a word; without it, the
role-match evaluation fails exactly when the roles list contains a wordless
role and no role before the first wordless one matches the text. -/
theorem c10_totality_amended :
    (∀ (profile : Profile) (seen : List Str) (ro : Bool) (jobs : List Posting),
      (∀ r ∈ profileRoles profile, pyWords r ≠ []) →
      ∃ out, filter_relevant_jobs jobs profile seen ro = .ok out) ∧
    (∀ (roles : List Str) (text : Str),
      roleMatchE roles text = .error () ↔
        ((roles.takeWhile fun r => !(pyWords r).isEmpty).length < roles.length ∧
          ∀ r ∈ roles.takeWhile (fun r => !(pyWords r).isEmpty),
            isSubstr (firstWord r) text = false)) := by
  constructor
  · intro profile seen ro jobs hw
    obtain ⟨filtered, hf⟩ :=
      filterWithE_ok_of_words hw (profileSkills profile) seen ro jobs []
    exact ⟨filtered.take 20, by simp [filter_relevant_jobs, hf]⟩
  · intro roles text
    exact roleMatchE_error_iff text roles

/-- Witness for C10 (amended) at a concrete profile whose roles all have
words. -/
theorem c10_totality_amended_witness :
    ∃ out, filter_relevant_jobs [exJob] exProfile [] false = .ok out :=
  c10_totality_amended.1 exProfile [] false [exJob] (by decide)

/-! ### Recency cutoff in the adapters -/

theorem fetch_remoteok_posted_at (now : Int) (data : List RokRaw) :
    ∀ p ∈ fetch_remoteok_jobs now data, ∀ t, p.posted_at = some t →
      now - 86400 ≤ t := by
  induction data with
  | nil => simp [fetch_remoteok_jobs]
  | cons j rest ih =>
    intro p hp t ht
    simp only [fetch_remoteok_jobs] at hp
    split at hp
    · exact ih p hp t ht
    · split at hp
      · exact ih p hp t ht
      · rename_i hskip hdate
        rcases List.mem_cons.mp hp with hp | hp
        · subst hp
          have hd : j.date = some t := by simpa [rokPosting] using ht
          rw [hd] at hdate
          simp only [Option.getD_some, not_lt] at hdate
          exact hdate
        · exact ih p hp t ht

theorem arbLoop_posted_at (now : Int) (data : List ArbRaw) :
    ∀ l, arbLoop now data = .ok l → ∀ p ∈ l, ∀ t, p.posted_at = some t →
      now - 86400 ≤ t := by
  induction data with
  | nil =>
    intro l hl
    simp only [arbLoop] at hl
    cases hl
    simp
  | cons j rest ih =>
    intro l hl
    simp only [arbLoop] at hl
    split at hl
    · exact ih l hl
    · rename_i hdate
      split at hl
      · simp at hl
      · rename_i slug hslug
        split at hl
        · simp at hl
        · rename_i t0 hcreated
          split at hl
          · simp at hl
          · rename_i tail htail
            cases hl
            intro p hp t ht
            rcases List.mem_cons.mp hp with hp | hp
            · subst hp
              have ht0 : t0 = t := by simpa [arbPosting] using ht
              subst ht0
              rw [hcreated] at hdate
              simp only [Option.getD_some, not_lt] at hdate
              exact hdate
            · exact ih tail htail p hp t ht

theorem fetch_arbeitnow_posted_at (now : Int) (data : List ArbRaw) :
    ∀ p ∈ fetch_arbeitnow_jobs now data, ∀ t, p.posted_at = some t →
      now - 86400 ≤ t := by
  intro p hp t ht
  unfold fetch_arbeitnow_jobs at hp
  split at hp
  · rename_i l hl
    exact arbLoop_posted_at now data l hl p hp t ht
  · simp at hp

theorem museLoop_posted_at (now : Int) (data : List MuseRaw) :
    ∀ l, museLoop now data = .ok l → ∀ p ∈ l, ∀ t, p.posted_at = some t →
      now - 86400 ≤ t := by
  induction data with
  | nil =>
    intro l hl
    simp only [museLoop] at hl
    cases hl
    simp
  | cons j rest ih =>
    intro l hl
    simp only [museLoop] at hl
    split at hl
    · exact ih l hl
    · rename_i hold
      split at hl
      · simp at hl
      · rename_i i hid
        split at hl
        · simp at hl
        · rename_i tail htail
          cases hl
          intro p hp t ht
          rcases List.mem_cons.mp hp with hp | hp
          · subst hp
            have hpub : j.publication_date = some t := by simpa [musePosting] using ht
            rw [pubTooOld, hpub] at hold
            simp only [decide_eq_true_eq, not_lt] at hold
            exact hold
          · exact ih tail htail p hp t ht

theorem fetch_themuse_posted_at (now : Int) (data : List MuseRaw) :
    ∀ p ∈ fetch_themuse_jobs now data, ∀ t, p.posted_at = some t →
      now - 86400 ≤ t := by
  intro p hp t ht
  unfold fetch_themuse_jobs at hp
  split at hp
  · rename_i l hl
    exact museLoop_posted_at now data l hl p hp t ht
  · simp at hp

theorem filter_relevant_jobs_sublist {jobs : List Posting} {profile : Profile}
    {seen : List Str} {ro : Bool} {out : List Posting}
    (h : filter_relevant_jobs jobs profile seen ro = .ok out) :
    out.Sublist jobs := by
  unfold filter_relevant_jobs at h
  split at h
  · simp at h
  · rename_i filtered hf
    cases h
    exact (List.take_sublist _ _).trans (filterWithE_ok_sublist _ jobs [] filtered hf)

/-- C5: no posting whose `posted_at` timestamp is strictly older than 24
hours (86400 seconds) before invocation time survives any adapter, and
hence no such posting appears in the filtered output of the pipeline. -/
theorem c5_recency_cutoff (now : Int) (d1 : List RokRaw) (d2 : List ArbRaw)
    (d3 : List MuseRaw) (profile : Profile) (seen : List Str) (ro : Bool)
    (out : List Posting) (p : Posting) (t : Int)
    (hfilter : filter_relevant_jobs
        (fetch_remoteok_jobs now d1 ++ fetch_arbeitnow_jobs now d2 ++
          fetch_themuse_jobs now d3) profile seen ro = .ok out)
    (hp : p ∈ out) (ht : p.posted_at = some t) :
    now - 86400 ≤ t := by
  have hall := (filter_relevant_jobs_sublist hfilter).mem hp
  rcases List.mem_append.mp hall with h12 | h3
  · rcases List.mem_append.mp h12 with h1 | h2
    · exact fetch_remoteok_posted_at now d1 p h1 t ht
    · exact fetch_arbeitnow_posted_at now d2 p h2 t ht
  · exact fetch_themuse_posted_at now d3 p h3 t ht

/-- A fresh RemoteOK raw entry, dated at invocation time `100000`. -/
def exRok : RokRaw :=
  { isDict := true
    id := some "1".toList
    position := some "Engineer".toList
    company := none
    description := some "desc".toList
    url := some "u".toList
    apply_url := none
    date := some 100000
    salary := none
    tags := none }

/-- The posting `exRok` normalizes to. -/
def exRokPosting : Posting := rokPosting exRok

/-- Witness for C5 at a concrete one-provider run. -/
theorem c5_recency_cutoff_witness : (100000 : Int) - 86400 ≤ 100000 :=
  c5_recency_cutoff 100000 [exRok] [] [] exProfile [] false [exRokPosting]
    exRokPosting 100000 (by decide) (by decide) (by decide)

/-! ### Report ordering -/

theorem filter_orderedInsert_score (s : Int) (x : Posting × Enrichment)
    (l : List (Posting × Enrichment)) :
    (List.orderedInsert scoreGE x l).filter (fun a => a.2.match_score == s) =
      if x.2.match_score = s
      then x :: l.filter (fun a => a.2.match_score == s)
      else l.filter (fun a => a.2.match_score == s) := by
  rw [List.orderedInsert_eq_take_drop, List.filter_append, List.filter_cons]
  by_cases hx : x.2.match_score = s
  · rw [if_pos hx]
    have htw : (List.takeWhile (fun b => decide ¬scoreGE x b) l).filter
        (fun a => a.2.match_score == s) = [] := by
      rw [List.filter_eq_nil_iff]
      intro a ha
      have hgt := List.mem_takeWhile_imp ha
      simp only [decide_eq_true_eq, scoreGE, not_le] at hgt
      simp only [beq_iff_eq]
      intro he
      rw [he, hx] at hgt
      exact lt_irrefl s hgt
    rw [htw, if_pos (by simp [hx])]
    conv_rhs =>
      rw [← List.takeWhile_append_dropWhile (p := fun b => decide ¬scoreGE x b) (l := l),
        List.filter_append, htw]
    simp
  · rw [if_neg hx, if_neg (by simp [hx])]
    conv_rhs =>
      rw [← List.takeWhile_append_dropWhile (p := fun b => decide ¬scoreGE x b) (l := l),
        List.filter_append]

theorem sortJobs_filter_score (s : Int) (l : List (Posting × Enrichment)) :
    (sortJobs l).filter (fun a => a.2.match_score == s) =
      l.filter (fun a => a.2.match_score == s) := by
  induction l with
  | nil => rfl
  | cons x xs ih =>
    rw [sortJobs, List.insertionSort]
    rw [show List.insertionSort scoreGE xs = sortJobs xs from rfl]
    rw [filter_orderedInsert_score, List.filter_cons]
    by_cases hx : x.2.match_score = s
    · rw [if_pos hx, if_pos (by simp [hx]), ih]
    · rw [if_neg hx, if_neg (by simp [hx]), ih]

/-- An enrichment with the given match score and empty content fields. -/
def exEnr (n : Int) : Enrichment :=
  { match_score := n
    match_reasons := []
    gaps := []
    keywords_to_add := []
    cover_letter := []
    resume_improvements := []
    application_strategy := []
    processed_at := [] }

/-- Three enriched pairs with scores 40, 90, 70, in that input order. -/
def exPairs : List (Posting × Enrichment) :=
  [(exJob, exEnr 40), (exJobZ, exEnr 90), (exJobNoLoc, exEnr 70)]

/-- The report rendered for `exPairs`: scores ranked 90, 70, 40. -/
def exReport : Report :=
  { header_count := 3
    cards := [(exJobZ, exEnr 90), (exJobNoLoc, exEnr 70), (exJob, exEnr 40)] }

/-- C6: the rendered report orders the enriched pairs by descending match
score (`scoreGE`-sorted), as a permutation of the input, with ties broken
stably (for every score value the pairs carrying it keep their input
order); concretely, input scores 40, 90, 70 render as 90, 70, 40. -/
theorem c6_report_ranked_desc_stable :
    (∀ (l : List (Posting × Enrichment)) (r : Report),
      send_email_digest l = some r →
        List.Sorted scoreGE r.cards ∧ r.cards.Perm l ∧
          ∀ s : Int, r.cards.filter (fun a => a.2.match_score == s) =
            l.filter (fun a => a.2.match_score == s)) ∧
    (sortJobs exPairs).map (fun x => x.2.match_score) = [90, 70, 40] := by
  constructor
  · intro l r h
    unfold send_email_digest at h
    split at h
    · simp at h
    · cases h
      refine ⟨List.sorted_insertionSort scoreGE l, List.perm_insertionSort scoreGE l,
        fun s => sortJobs_filter_score s l⟩
  · decide

/-- Witness for C6 at the concrete three-pair input. -/
theorem c6_report_ranked_desc_stable_witness :
    List.Sorted scoreGE exReport.cards ∧
    exReport.cards.Perm exPairs ∧
    exReport.cards.filter (fun a => a.2.match_score == 70) =
      exPairs.filter (fun a => a.2.match_score == 70) :=
  (fun h => ⟨h.1, h.2.1, h.2.2 70⟩)
    (c6_report_ranked_desc_stable.1 exPairs exReport (by decide))

/-! ### Enrichment loop error isolation -/

/-- C7: the enrichment loop persists exactly the pairs whose oracle call
succeeds (the persisted rows equal `jobs_with_ai`, which is the input
filtered to oracle successes in input order), so a run over N postings with
exactly one oracle failure completes with N-1 enriched, persisted results. -/
theorem c7_oracle_failure_drops_one (oracle : Posting → Except Unit Enrichment)
    (jobs : List Posting) :
    (enrichAndPersist oracle jobs).1 = (enrichAndPersist oracle jobs).2 ∧
    (enrichAndPersist oracle jobs).2 =
      jobs.filterMap (fun j => ((oracle j).toOption).map (fun ai => (j, ai))) ∧
    ((jobs.filter (fun j => !((oracle j).toOption.isSome))).length = 1 →
      (enrichAndPersist oracle jobs).2.length + 1 = jobs.length) := by
  have key : ∀ js : List Posting,
      (enrichAndPersist oracle js).1 = (enrichAndPersist oracle js).2 ∧
      (enrichAndPersist oracle js).2 =
        js.filterMap (fun j => ((oracle j).toOption).map (fun ai => (j, ai))) ∧
      (enrichAndPersist oracle js).2.length +
        (js.filter (fun j => !((oracle j).toOption.isSome))).length = js.length := by
    intro js
    induction js with
    | nil => exact ⟨rfl, rfl, rfl⟩
    | cons j rest ih =>
      rcases ho : oracle j with e | ai
      · have hA : enrichAndPersist oracle (j :: rest) = enrichAndPersist oracle rest := by
          simp [enrichAndPersist, ho]
        have hB : (j :: rest).filterMap
              (fun jj => ((oracle jj).toOption).map (fun ai => (jj, ai))) =
            rest.filterMap (fun jj => ((oracle jj).toOption).map (fun ai => (jj, ai))) :=
          List.filterMap_cons_none (by simp [ho, Except.toOption])
        have hC : (j :: rest).filter (fun jj => !((oracle jj).toOption.isSome)) =
            j :: rest.filter (fun jj => !((oracle jj).toOption.isSome)) :=
          List.filter_cons_of_pos (by simp [ho, Except.toOption])
        rw [hA, hB, hC]
        refine ⟨ih.1, ih.2.1, ?_⟩
        have := ih.2.2
        simp only [List.length_cons]
        omega
      · have hA : enrichAndPersist oracle (j :: rest) =
            ((j, ai) :: (enrichAndPersist oracle rest).1,
              (j, ai) :: (enrichAndPersist oracle rest).2) := by
          simp [enrichAndPersist, ho]
        have hB : (j :: rest).filterMap
              (fun jj => ((oracle jj).toOption).map (fun ai => (jj, ai))) =
            (j, ai) :: rest.filterMap
              (fun jj => ((oracle jj).toOption).map (fun ai => (jj, ai))) :=
          List.filterMap_cons_some (by simp [ho, Except.toOption])
        have hC : (j :: rest).filter (fun jj => !((oracle jj).toOption.isSome)) =
            rest.filter (fun jj => !((oracle jj).toOption.isSome)) :=
          List.filter_cons_of_neg (by simp [ho, Except.toOption])
        rw [hA, hB, hC]
        refine ⟨?_, ?_, ?_⟩
        · dsimp only
          rw [ih.1]
        · dsimp only
          rw [ih.2.1]
        · dsimp only
          have := ih.2.2
          simp only [List.length_cons]
          omega
  refine ⟨(key jobs).1, (key jobs).2.1, fun h1 => ?_⟩
  have := (key jobs).2.2
  rw [h1] at this
  omega

/-- A deterministic oracle failing exactly on posting id `rok_2`. -/
def exOracle : Posting → Except Unit Enrichment :=
  fun p => if p.job_id = "rok_2".toList then .error () else .ok (exEnr 50)

/-- Witness for C7: two postings, one oracle failure, one result. -/
theorem c7_oracle_failure_drops_one_witness :
    (enrichAndPersist exOracle [exJob, exJobZ]).2.length + 1 =
      ([exJob, exJobZ] : List Posting).length :=
  (c7_oracle_failure_drops_one exOracle [exJob, exJobZ]).2.2 (by decide)

/-! ### Empty filtered list ends the run normally -/

/-- C8: when the filtered candidate list is empty the run ends normally at
that point — no enrichment, no persisted row, no report. -/
theorem c8_empty_filter_normal_stop (oracle : Posting → Except Unit Enrichment)
    (profile : Profile) (seen : List Str) (ro : Bool) (all_jobs : List Posting)
    (h : filter_relevant_jobs all_jobs profile seen ro = .ok []) :
    runPipeline oracle profile seen ro all_jobs =
      .ok { persisted := [], jobs_with_ai := [], report := none } := by
  unfold runPipeline
  rw [h]
  rfl

/-- A posting the deny-list rejects (location `Remote - UK`). -/
def exJobUK : Posting := { exJob with location := "Remote - UK".toList }

/-- Witness for C8: every input posting is filtered out, and the run ends
normally with nothing enriched, persisted or reported. -/
theorem c8_empty_filter_normal_stop_witness :
    runPipeline exOracle exProfile [] false [exJobUK] =
      .ok { persisted := [], jobs_with_ai := [], report := none } :=
  c8_empty_filter_normal_stop exOracle exProfile [] false [exJobUK] (by decide)

end JobAutomator
